import Mathlib

/-!
Verification development for the `TimeSeriesDataset` windowing/sampling engine
(`nixtla/data/tsdataset.py`).

The definitions below are a shallow embedding of the Python source:
tensors become nested lists of `Int`, numpy/torch slicing becomes explicit
`List.drop`/`List.take`, and the batch method `__getitem__` becomes a total
function returning `Except`.  RNG-driven resampling is modelled by an oracle
stream of selections, and the unbounded recursive retry by explicit fuel.
-/

/-- Python slice `l[-k:]`: for `k = 0` this is `l[0:]` (the whole list),
otherwise the last `min k l.length` elements. -/
def negTail (l : List Int) (k : Nat) : List Int :=
  if k = 0 then l else l.drop (l.length - k)

/-- Python slice `l[:-k]`: for `k = 0` this is `l[:0] = []`,
otherwise everything but the last `min k l.length` elements. -/
def negDropTail (l : List Int) (k : Nat) : List Int :=
  if k = 0 then [] else l.take (l.length - k)

/-- pandas `DataFrame.tail k`: the last `min k l.length` rows. -/
def tailN (l : List Nat) (k : Nat) : List Nat :=
  l.drop (l.length - k)

/-- Running (inclusive) prefix sums, as `torch.cumsum` along dim 0. -/
def cumsum : List Nat → List Nat
  | [] => []
  | a :: t => a :: (cumsum t).map (a + ·)

/-- Run-length encoding: maximal runs of equal adjacent values with their
lengths.  Applied to a sorted list this matches `torch.unique
(return_counts := true)`: sorted distinct values with their multiplicities. -/
def rle : List Nat → List (Nat × Nat)
  | [] => []
  | a :: t =>
    match rle t with
    | [] => [(a, 1)]
    | (b, c) :: r => if a = b then (a, c + 1) :: r else (a, 1) :: (b, c) :: r

/-- One row of the mask table built by `get_default_mask_df`. -/
structure MaskRow where
  uid : Nat
  ds : Nat
  available_mask : Int
  sample_mask : Int
deriving DecidableEq

/-- The sorted timestamps of series `u` in target table `Y`
(rows are `(unique_id, ds)` pairs), as produced by
`sort_values(by := [unique_id, ds])` followed by `groupby(unique_id)`. -/
def sortedDsOf (Y : List (Nat × Nat)) (u : Nat) : List Nat :=
  List.insertionSort (· ≤ ·) ((Y.filter (fun p => p.1 == u)).map Prod.snd)

/-- One output row of `get_default_mask_df` for target row `p`:
`available_mask = 1`; `sample_mask = 0` when the row's `(unique_id, ds)` label
falls in `groupby(unique_id).tail(ds_in_test)` of the sorted copy (label-based
`.loc` assignment, so membership of the row's `ds` in the sorted tail of its
own series), else 1; `is_test` flips it. -/
def defaultMaskRow (Y : List (Nat × Nat)) (ds_in_test : Nat) (is_test : Bool)
    (p : Nat × Nat) : MaskRow :=
  let sm : Int := if p.2 ∈ tailN (sortedDsOf Y p.1) ds_in_test then 0 else 1
  { uid := p.1, ds := p.2, available_mask := 1,
    sample_mask := if is_test then 1 - sm else sm }

/-- `get_default_mask_df`: the mask row of every target row, in the target
table's row order. -/
def getDefaultMaskDf (Y : List (Nat × Nat)) (ds_in_test : Nat) (is_test : Bool) :
    List MaskRow :=
  Y.map (defaultMaskRow Y ds_in_test is_test)

/-- One series of `_create_tensor`: the assignment
`ts_tensor[idx, :, -L:] = ts_idx.T` into a zero-initialised row, i.e. channel
`c` is `max_len - L` zeros followed by column `c` of the series' (time ×
channel) array. -/
def packSeries (n_channels max_len : Nat) (ts : List (List Int)) : List (List Int) :=
  (List.range n_channels).map (fun c =>
    List.replicate (max_len - ts.length) 0 ++ ts.map (fun row => row.getD c 0))

/-- `_create_tensor`: pack every series left-padded into the dense tensor,
`np.vstack` the per-series static blocks, and record the true lengths. -/
def createTensor (n_channels max_len : Nat)
    (ts_data : List (List (List Int))) (s_data : List (List (List Int))) :
    List (List (List Int)) × List (List Int) × List Nat :=
  (ts_data.map (packSeries n_channels max_len), s_data.flatten, ts_data.map List.length)

/-- A window: `n_channels` channel rows of `windows_size` values. -/
abbrev Window := List (List Int)

/-- The dataset state relevant to windowing, after `__init__`:
the packed tensor, the static matrix, and the window configuration. -/
structure Dataset where
  t_cols : List String
  ts_tensor : List (List (List Int))
  s_matrix : List (List Int)
  max_len : Nat
  output_size : Nat
  windows_size : Nat
  pad_left : Nat
  pad_right : Nat
  idx_to_sample_freq : Nat
  first_ds : Nat
  complete_inputs : Bool
  complete_outputs : Bool
  skip_nonsamplable : Bool
  last_samplable_window : Bool
deriving DecidableEq

/-- One channel row after `[:, :, first_ds:]` restriction and
`ConstantPad1d (pad_left, pad_right)`. -/
def padRow (d : Dataset) (ch : List Int) : List Int :=
  List.replicate d.pad_left 0 ++ ch.drop d.first_ds ++ List.replicate d.pad_right 0

/-- Length of the padded time axis:
`pad_left + (max_len - first_ds) + pad_right`. -/
def paddedLen (d : Dataset) : Nat :=
  d.pad_left + (d.max_len - d.first_ds) + d.pad_right

/-- Number of windows `tensor.unfold` yields per series:
`(L - size) / step + 1` when `size ≤ L`. -/
def numWindows (d : Dataset) : Nat :=
  if d.windows_size ≤ paddedLen d then
    (paddedLen d - d.windows_size) / d.idx_to_sample_freq + 1
  else 0

/-- The rolling windows of one series, in ascending time order: window `k`
covers padded columns `[k * step, k * step + windows_size)` of every channel. -/
def seriesWindows (d : Dataset) (series : List (List Int)) : List Window :=
  (List.range (numWindows d)).map (fun k =>
    series.map (fun ch => ((padRow d ch).drop (k * d.idx_to_sample_freq)).take d.windows_size))

/-- `_create_windows_tensor`: windows of the selected series flattened in
(series, time) order; the per-window static matrix and series-index vector are
built with `repeat (windows.length / n_ts)` exactly as in the source. -/
def createWindowsTensor (d : Dataset) (idxs : List Nat) :
    List Window × List (List Int) × List Nat :=
  let windows := idxs.flatMap (fun i => seriesWindows d (d.ts_tensor.getD i []))
  let wps := windows.length / idxs.length
  (windows,
   idxs.flatMap (fun i => List.replicate wps (d.s_matrix.getD i [])),
   idxs.flatMap (fun i => List.replicate wps i))

/-- Channel row of a window selected by column name, as
`w[t_cols.index name]`. -/
def windowChannel (d : Dataset) (w : Window) (name : String) : List Int :=
  w.getD (d.t_cols.indexOf name) []

/-- `sample_condition`: the sum of `sample_mask` over the last `output_size`
steps equals `output_size`. -/
def sampleCond (d : Dataset) (w : Window) : Bool :=
  (negTail (windowChannel d w "sample_mask") d.output_size).sum == (d.output_size : Int)

/-- `av_condition_in`: with `complete_inputs`, the sum of `available_mask`
over the first `windows_size - output_size` steps equals
`windows_size - output_size`; otherwise it is `sample_condition`. -/
def avCondIn (d : Dataset) (w : Window) : Bool :=
  if d.complete_inputs then
    (negDropTail (windowChannel d w "available_mask") d.output_size).sum
      == ((d.windows_size : Int) - (d.output_size : Int))
  else sampleCond d w

/-- `av_condition_out`: with `complete_outputs`, the sum of `available_mask`
over the last `output_size + 1` steps equals `output_size + 1`; otherwise it
is `sample_condition`. -/
def avCondOut (d : Dataset) (w : Window) : Bool :=
  if d.complete_outputs then
    (negTail (windowChannel d w "available_mask") (d.output_size + 1)).sum
      == ((d.output_size : Int) + 1)
  else sampleCond d w

/-- `_get_samplable_windows_idxs`: indices (ascending, from `t.nonzero`) of
the windows where `av_condition_in * av_condition_out * sample_condition > 0`. -/
def samplableIdxs (d : Dataset) (ws : List Window) : List Nat :=
  (List.range ws.length).filter
    (fun i => avCondIn d (ws.getD i []) && avCondOut d (ws.getD i [])
      && sampleCond d (ws.getD i []))

/-- `_define_samplable_ts_idxs`: series whose total `sample_mask` exceeds
`windows_size` (with `complete_inputs`) or `output_size`. -/
def samplableTsIdxs (d : Dataset) : List Nat :=
  (List.range d.ts_tensor.length).filter
    (fun i =>
      ((d.ts_tensor.getD i []).getD (d.t_cols.indexOf "sample_mask") []).sum
        > (if d.complete_inputs then (d.windows_size : Int) else (d.output_size : Int)))

/-- A selection after `__getitem__`'s `int → [int]` normalisation:
a slice or an explicit list. -/
inductive SL where
  | slice (a b : Nat) : SL
  | list (l : List Nat) : SL
deriving DecidableEq

/-- The index argument of `__getitem__`: `other` stands for any value that is
neither `int`, `slice` nor `list`. -/
inductive Sel where
  | int (i : Nat) : Sel
  | slice (a b : Nat) : Sel
  | list (l : List Nat) : Sel
  | other : Sel

/-- The exceptions `__getitem__` can raise.  `outOfFuel` is the modelling
artefact for the unbounded recursive resampling retry. -/
inductive GetErr where
  | invalidIndexType : GetErr
  | nonSamplable (idx : SL) : GetErr
  | outOfFuel : GetErr
deriving DecidableEq

/-- The batch dictionary returned by `__getitem__`. -/
structure Batch where
  S : List (List Int)
  Y : List (List Int)
  X : List Window
  available_mask : List (List Int)
  sample_mask : List (List Int)
  idxs : List Nat
deriving DecidableEq

/-- The series indices a selection denotes: a slice `a:b` of
`arange n_series`, or the explicit list. -/
def selIdxs (d : Dataset) (sl : SL) : List Nat :=
  match sl with
  | .slice a b => (List.range d.ts_tensor.length).filter (fun i => a ≤ i && i < b)
  | .list l => l

/-- The windows tensor `_create_windows_tensor` returns for a selection. -/
def windowsOf (d : Dataset) (idxs : List Nat) : List Window :=
  (createWindowsTensor d idxs).1

/-- The per-window static matrix `_create_windows_tensor` returns. -/
def winStat (d : Dataset) (idxs : List Nat) : List (List Int) :=
  (createWindowsTensor d idxs).2.1

/-- The per-window series-index vector `_create_windows_tensor` returns. -/
def winTs (d : Dataset) (idxs : List Nat) : List Nat :=
  (createWindowsTensor d idxs).2.2

/-- `windows_idxs` inside `__getitem__`. -/
def sampIdxs (d : Dataset) (idxs : List Nat) : List Nat :=
  samplableIdxs d (windowsOf d idxs)

/-- `windows[windows_idxs]`: the samplable windows. -/
def filtWindows (d : Dataset) (idxs : List Nat) : List Window :=
  (sampIdxs d idxs).map (fun i => (windowsOf d idxs).getD i [])

/-- `s_matrix[windows_idxs]`: the statics of the samplable windows. -/
def filtStat (d : Dataset) (idxs : List Nat) : List (List Int) :=
  (sampIdxs d idxs).map (fun i => (winStat d idxs).getD i [])

/-- `ts_idxs[windows_idxs]`: the series indices of the samplable windows. -/
def filtTs (d : Dataset) (idxs : List Nat) : List Nat :=
  (sampIdxs d idxs).map (fun i => (winTs d idxs).getD i 0)

/-- The positions `idxs_counts.cumsum(0) - 1` computed from
`t.unique(ts_idxs, return_counts := true)` in the last-window branch. -/
def lastIdxsOf (l : List Nat) : List Nat :=
  (cumsum ((rle (List.insertionSort (· ≤ ·) l)).map Prod.snd)).map (· - 1)

/-- The final channel split of `__getitem__`: `Y` is the `y` channel, `X` the
channels strictly between `y` and `available_mask`, plus the two mask
channels, the static rows and the series indices. -/
def splitChannels (d : Dataset) (ws : List Window) (S : List (List Int))
    (ts : List Nat) : Batch :=
  { S := S
    Y := ws.map (fun w => w.getD (d.t_cols.indexOf "y") [])
    X := ws.map (fun w =>
      (w.drop (d.t_cols.indexOf "y" + 1)).take
        (d.t_cols.indexOf "available_mask" - (d.t_cols.indexOf "y" + 1)))
    available_mask := ws.map (fun w => w.getD (d.t_cols.indexOf "available_mask") [])
    sample_mask := ws.map (fun w => w.getD (d.t_cols.indexOf "sample_mask") [])
    idxs := ts }

/-- `__getitem__` after index normalisation.  `fuel` bounds the recursive
skip-and-resample retry; `rng` is the oracle stream driving
`np.random.choice(samplable_ts_idxs, size := n_ts)`, each draw giving the
positions into `samplableTsIdxs`.  In the `last_samplable_window` branch the
static rows are taken from the pre-filter matrix `winStat` (not from the
filtered `S`), exactly as `S = s_matrix[last_idxs]` does in the source. -/
def getitemCore (d : Dataset) : Nat → List (List Nat) → SL → Except GetErr Batch
  | fuel, rng, sl =>
    if sampIdxs d (selIdxs d sl) = [] then
      if d.skip_nonsamplable then
        match fuel with
        | 0 => .error .outOfFuel
        | fuel' + 1 =>
          getitemCore d fuel' rng.tail
            (.list (((rng.headD []).map
              (fun j => (samplableTsIdxs d).getD j 0)).take (selIdxs d sl).length))
      else .error (.nonSamplable sl)
    else
      if d.last_samplable_window then
        Except.ok (splitChannels d
          ((lastIdxsOf (filtTs d (selIdxs d sl))).map
            (fun i => (filtWindows d (selIdxs d sl)).getD i []))
          ((lastIdxsOf (filtTs d (selIdxs d sl))).map
            (fun i => (winStat d (selIdxs d sl)).getD i []))
          ((lastIdxsOf (filtTs d (selIdxs d sl))).map
            (fun i => (filtTs d (selIdxs d sl)).getD i 0)))
      else
        Except.ok (splitChannels d (filtWindows d (selIdxs d sl))
          (filtStat d (selIdxs d sl)) (filtTs d (selIdxs d sl)))

/-- `__getitem__`: type-check the index, convert `int i` to `[i]`, and run. -/
def getitem (d : Dataset) (fuel : Nat) (rng : List (List Nat)) :
    Sel → Except GetErr Batch
  | .int i => getitemCore d fuel rng (.list [i])
  | .slice a b => getitemCore d fuel rng (.slice a b)
  | .list l => getitemCore d fuel rng (.list l)
  | .other => .error .invalidIndexType

/-- Modelled from the spec (refinement reference for the last-window policy):
the positions of the filtered windows that are the last samplable window of
their series, i.e. whose series index does not occur again later. -/
def specLastWindowSel (ts : List Nat) : List Nat :=
  (List.range ts.length).filter
    (fun p => (ts.drop (p + 1)).all (fun x => x != ts.getD p 0))

/-- The caller-supplied mask table: key columns, the `sample_mask` column,
and the optional `available_mask` column. -/
structure MaskTable where
  uids : List Nat
  dss : List Nat
  sample_mask : List Int
  available_mask : Option (List Int)
deriving DecidableEq

/-- All caller-supplied construction tables. -/
structure InitTables where
  Y_df : List (Nat × Nat × Int)
  X_df : Option (List (Nat × Nat × List Int))
  S_df : Option (List (Nat × List Int))
  mask_df : Option MaskTable
deriving DecidableEq

/-- The caller's mask table after `__init__`: the statement
`mask_df[available_mask] = 1` writes a column of ones into the caller's
frame when the column is absent. -/
def maskTableAfterInit (m : MaskTable) : MaskTable :=
  if m.available_mask.isSome then m
  else { m with available_mask := some (List.replicate m.uids.length 1) }

/-- The caller-visible state of all four input tables after `__init__`:
`Y_df`, `X_df` and `S_df` are only read through sorted copies
(`sort_values().copy()`; the `inplace` drop acts on the copy), while a
supplied `mask_df` is mutated as in `maskTableAfterInit`. -/
def initTablesAfter (tb : InitTables) : InitTables :=
  { tb with mask_df := tb.mask_df.map maskTableAfterInit }

/-- Example dataset: 2 series of length 3, channels `y`, `available_mask`,
`sample_mask`; windows of width 2, stride 1, no padding. -/
def exA : Dataset :=
  { t_cols := ["y", "available_mask", "sample_mask"]
    ts_tensor := [[[1, 2, 3], [1, 1, 1], [1, 1, 1]],
                  [[4, 5, 6], [1, 1, 1], [1, 0, 1]]]
    s_matrix := [[10], [20]]
    max_len := 3, output_size := 1, windows_size := 2
    pad_left := 0, pad_right := 0, idx_to_sample_freq := 1, first_ds := 0
    complete_inputs := false, complete_outputs := false
    skip_nonsamplable := false, last_samplable_window := false }

/-- Example dataset for the static-alignment bug: both series have only their
second window samplable, the statics of the two series differ, and the
last-window policy is on. -/
def dC5 : Dataset :=
  { t_cols := ["y", "available_mask", "sample_mask"]
    ts_tensor := [[[1, 2, 3], [1, 1, 1], [1, 0, 1]],
                  [[4, 5, 6], [1, 1, 1], [1, 0, 1]]]
    s_matrix := [[10], [20]]
    max_len := 3, output_size := 1, windows_size := 2
    pad_left := 0, pad_right := 0, idx_to_sample_freq := 1, first_ds := 0
    complete_inputs := false, complete_outputs := false
    skip_nonsamplable := false, last_samplable_window := true }

/-- Example dataset for the descending-selection counterexample: series 0 has
two samplable windows, series 1 one, and the last-window policy is on. -/
def dC6 : Dataset :=
  { t_cols := ["y", "available_mask", "sample_mask"]
    ts_tensor := [[[1, 2, 3], [1, 1, 1], [1, 1, 1]],
                  [[4, 5, 6], [1, 1, 1], [1, 0, 1]]]
    s_matrix := [[10], [20]]
    max_len := 3, output_size := 1, windows_size := 2
    pad_left := 0, pad_right := 0, idx_to_sample_freq := 1, first_ds := 0
    complete_inputs := false, complete_outputs := false
    skip_nonsamplable := false, last_samplable_window := true }

/-- Example dataset with no samplable window at all (`sample_mask` ≡ 0). -/
def exNS : Dataset :=
  { t_cols := ["y", "available_mask", "sample_mask"]
    ts_tensor := [[[1, 2, 3], [1, 1, 1], [0, 0, 0]],
                  [[4, 5, 6], [1, 1, 1], [0, 0, 0]]]
    s_matrix := [[10], [20]]
    max_len := 3, output_size := 1, windows_size := 2
    pad_left := 0, pad_right := 0, idx_to_sample_freq := 1, first_ds := 0
    complete_inputs := false, complete_outputs := false
    skip_nonsamplable := false, last_samplable_window := false }

/-- A caller-supplied panel whose mask table has no `available_mask` column. -/
def tbC9 : InitTables :=
  { Y_df := [(0, 0, 5)], X_df := none, S_df := none,
    mask_df := some { uids := [0], dss := [0], sample_mask := [1], available_mask := none } }

/-- The same panel with the `available_mask` column supplied. -/
def tbC9ok : InitTables :=
  { Y_df := [(0, 0, 5)], X_df := none, S_df := none,
    mask_df := some { uids := [0], dss := [0], sample_mask := [1], available_mask := some [1] } }

/-- `exA` with the last-samplable-window policy enabled. -/
def exALast : Dataset :=
  { exA with last_samplable_window := true }

/-- The batch `exALast[[0, 1]]` returns. -/
def bLastA : Batch :=
  { S := [[10], [20]], Y := [[2, 3], [5, 6]], X := [[], []],
    available_mask := [[1, 1], [1, 1]], sample_mask := [[1, 1], [0, 1]],
    idxs := [0, 1] }

/-- Claim C10: fetching a batch with the single integer `i` returns exactly
the same batch, field by field, as fetching with the one-element list `[i]`:
`__getitem__` normalises `int idx` to `[idx]` before doing anything else. -/
theorem getitem_int_list_equiv (d : Dataset) (fuel : Nat) (rng : List (List Nat))
    (i : Nat) :
    getitem d fuel rng (Sel.int i) = getitem d fuel rng (Sel.list [i]) := rfl

/-- Claim C9 counterexample: constructing with a supplied mask table that
lacks an `available_mask` column modifies that table in place
(`mask_df[available_mask] = 1` writes into the caller's frame), so the claim
that all caller-supplied tables are left unchanged is false. -/
theorem init_mutates_maskless_table_cex : initTablesAfter tbC9 ≠ tbC9 := by
  decide

/-- Claim C9 (amended): construction leaves the caller-supplied target,
exogenous and static tables unchanged, and leaves a supplied mask table
unchanged provided it already has an `available_mask` column; only a mask
table lacking that column is modified (it gains the column, filled with 1). -/
theorem init_tables_unchanged_amended (tb : InitTables)
    (h : tb.mask_df.all (fun m => m.available_mask.isSome) = true) :
    initTablesAfter tb = tb := by
  cases tb with
  | mk Y X S m =>
    cases m with
    | none => rfl
    | some mt =>
      simp only [Option.all_some] at h
      simp [initTablesAfter, maskTableAfterInit, h]

/-- Witness for the amended C9 theorem at a concrete panel whose mask table
carries an `available_mask` column. -/
theorem init_tables_unchanged_amended_witness :
    tbC9ok.mask_df.all (fun m => m.available_mask.isSome) = true ∧
    initTablesAfter tbC9ok = tbC9ok :=
  ⟨by decide, init_tables_unchanged_amended tbC9ok (by decide)⟩

/-- Claim C8: a batch request whose selection yields zero samplable windows
fails, when the skip-and-resample policy is off, with a non-samplable error
carrying the offending selection (and no batch is returned); and a request
whose index is neither `int`, `slice` nor `list` fails with the
invalid-index-type error. -/
theorem nonsamplable_error_spec (d : Dataset) (sl : SL) (fuel : Nat)
    (rng : List (List Nat))
    (hskip : d.skip_nonsamplable = false)
    (hempty : sampIdxs d (selIdxs d sl) = []) :
    getitemCore d fuel rng sl = Except.error (GetErr.nonSamplable sl) ∧
    getitem d fuel rng Sel.other = Except.error GetErr.invalidIndexType := by
  constructor
  · unfold getitemCore
    simp [hempty, hskip]
  · rfl

/-- Witness for C8 at a dataset with an all-zero `sample_mask`. -/
theorem nonsamplable_error_spec_witness :
    (exNS.skip_nonsamplable = false ∧
      sampIdxs exNS (selIdxs exNS (SL.list [0, 1])) = []) ∧
    (getitemCore exNS 1 [] (SL.list [0, 1])
        = Except.error (GetErr.nonSamplable (SL.list [0, 1])) ∧
      getitem exNS 1 [] Sel.other = Except.error GetErr.invalidIndexType) :=
  ⟨⟨rfl, by decide⟩,
   nonsamplable_error_spec exNS (SL.list [0, 1]) 1 [] rfl (by decide)⟩

/-- Claim C5 (code bug evaluation): with the last-window policy enabled the
returned static rows are taken from the pre-filter per-window static matrix
(`S = s_matrix[last_idxs]` in the source) while windows and identifiers are
taken from the filtered tensors, so the static field is misaligned with the
identifier field: here row 1 names series 1, whose static row is `[20]`, but
carries `[10]`. -/
theorem static_misalignment_eval :
    getitemCore dC5 1 [] (SL.list [0, 1]) =
      Except.ok { S := [[10], [10]], Y := [[2, 3], [5, 6]], X := [[], []],
                  available_mask := [[1, 1], [1, 1]],
                  sample_mask := [[0, 1], [0, 1]], idxs := [0, 1] } ∧
    dC5.s_matrix.getD 1 [] = [20] := by
  constructor
  · rfl
  · rfl

/-- Claim C6 counterexample: with the last-window policy enabled and the
explicit descending selection `[1, 0]`, the batch's identifier field is
`[0, 0]` — series 0 appears twice and series 1, although present in the
filtered samplable set, is missing — because `t.unique` sorts the series
values while the filtered windows stay in selection order. -/
theorem last_window_policy_cex :
    getitemCore dC6 1 [] (SL.list [1, 0]) =
      Except.ok { S := [[20], [10]], Y := [[1, 2], [2, 3]], X := [[], []],
                  available_mask := [[1, 1], [1, 1]],
                  sample_mask := [[1, 1], [1, 1]], idxs := [0, 0] } ∧
    1 ∈ filtTs dC6 (selIdxs dC6 (SL.list [1, 0])) := by
  constructor
  · rfl
  · decide

/-- Claim C7: for 0/1 mask values, every window index samplable with
`complete_inputs` and/or `complete_outputs` enabled is also samplable with
both flags disabled (the `sample_condition` factor is always present), so
enabling either flag never increases the samplable count. -/
theorem samplable_filter_monotone (d : Dataset) (ws : List Window) (b1 b2 : Bool)
    (h01 : ∀ w ∈ ws,
      (∀ x ∈ windowChannel d w "sample_mask", x = 0 ∨ x = 1) ∧
      (∀ x ∈ windowChannel d w "available_mask", x = 0 ∨ x = 1)) :
    (∀ i ∈ samplableIdxs
        { d with complete_inputs := b1, complete_outputs := b2 } ws,
      i ∈ samplableIdxs
        { d with complete_inputs := false, complete_outputs := false } ws) ∧
    (samplableIdxs { d with complete_inputs := b1, complete_outputs := b2 } ws).length ≤
      (samplableIdxs
        { d with complete_inputs := false, complete_outputs := false } ws).length := by
  have key : ∀ w : Window,
      (avCondIn { d with complete_inputs := b1, complete_outputs := b2 } w &&
       avCondOut { d with complete_inputs := b1, complete_outputs := b2 } w &&
       sampleCond { d with complete_inputs := b1, complete_outputs := b2 } w) = true →
      (avCondIn { d with complete_inputs := false, complete_outputs := false } w &&
       avCondOut { d with complete_inputs := false, complete_outputs := false } w &&
       sampleCond { d with complete_inputs := false, complete_outputs := false } w) = true := by
    intro w hw
    simp only [Bool.and_eq_true] at hw
    have hs : sampleCond d w = true := hw.2
    show (sampleCond d w && sampleCond d w && sampleCond d w) = true
    simp [hs]
  constructor
  · intro i hi
    rw [samplableIdxs, List.mem_filter] at hi ⊢
    exact ⟨hi.1, key _ hi.2⟩
  · exact List.Sublist.length_le
      (List.monotone_filter_right _ (fun i hi => key _ hi))

/-- Witness for C7 at `exA`'s windows. -/
theorem samplable_filter_monotone_witness :
    (∀ w ∈ windowsOf exA [0, 1],
      (∀ x ∈ windowChannel exA w "sample_mask", x = 0 ∨ x = 1) ∧
      (∀ x ∈ windowChannel exA w "available_mask", x = 0 ∨ x = 1)) ∧
    ((∀ i ∈ samplableIdxs
        { exA with complete_inputs := true, complete_outputs := true }
        (windowsOf exA [0, 1]),
      i ∈ samplableIdxs
        { exA with complete_inputs := false, complete_outputs := false }
        (windowsOf exA [0, 1])) ∧
    (samplableIdxs { exA with complete_inputs := true, complete_outputs := true }
        (windowsOf exA [0, 1])).length ≤
      (samplableIdxs
        { exA with complete_inputs := false, complete_outputs := false }
        (windowsOf exA [0, 1])).length) :=
  ⟨by decide, samplable_filter_monotone exA (windowsOf exA [0, 1]) true true (by decide)⟩

/-- Channel `c` of a packed series: the left zero-padding followed by the
series' column `c`. -/
theorem packSeries_getD (n_channels max_len : Nat) (ts : List (List Int))
    (c : Nat) (hc : c < n_channels) :
    (packSeries n_channels max_len ts).getD c [] =
      List.replicate (max_len - ts.length) 0 ++ ts.map (fun row => row.getD c 0) := by
  rw [packSeries, List.getD_eq_getElem _ _ (by simpa using hc), List.getElem_map,
    List.getElem_range]

/-- Claim C3: for a valid panel the packed tensor puts series `i`'s channel
rows, in timestamp order, into the rightmost `len_i` columns, the columns to
their left are all zero, the static matrix stacks the per-series static
blocks in series order, and `len_series` records the true lengths. -/
theorem tensor_packer_spec (n_channels max_len : Nat)
    (ts_data s_data : List (List (List Int)))
    (hlen : ∀ ts ∈ ts_data, 1 ≤ ts.length ∧ ts.length ≤ max_len)
    (hrow : ∀ ts ∈ ts_data, ∀ row ∈ ts, row.length = n_channels) :
    (∀ i, i < ts_data.length → ∀ c, c < n_channels →
      (∀ j, j < max_len - (ts_data.getD i []).length →
        (((createTensor n_channels max_len ts_data s_data).1.getD i []).getD c []).getD j 0
          = 0) ∧
      (∀ j, j < (ts_data.getD i []).length →
        (((createTensor n_channels max_len ts_data s_data).1.getD i []).getD c []).getD
            (max_len - (ts_data.getD i []).length + j) 0
          = ((ts_data.getD i []).getD j []).getD c 0)) ∧
    (createTensor n_channels max_len ts_data s_data).2.1 = s_data.flatten ∧
    (∀ i, i < ts_data.length →
      (createTensor n_channels max_len ts_data s_data).2.2.getD i 0
        = (ts_data.getD i []).length) := by
  refine ⟨?_, rfl, ?_⟩
  · intro i hi c hc
    have hmap : (createTensor n_channels max_len ts_data s_data).1.getD i []
        = packSeries n_channels max_len (ts_data.getD i []) := by
      show (ts_data.map (packSeries n_channels max_len)).getD i [] = _
      rw [List.getD_eq_getElem _ _ (by simpa using hi), List.getElem_map,
        List.getD_eq_getElem _ _ hi]
    rw [hmap, packSeries_getD _ _ _ _ hc]
    constructor
    · intro j hj
      rw [List.getD_append _ _ _ _ (by simpa using hj),
        List.getD_eq_getElem _ _ (by simpa using hj), List.getElem_replicate]
    · intro j hj
      rw [List.getD_append_right _ _ _ _ (by simp), List.length_replicate,
        Nat.add_sub_cancel_left,
        List.getD_eq_getElem _ _ (by simpa using hj), List.getElem_map,
        List.getD_eq_getElem _ _ hj]
  · intro i hi
    show (ts_data.map List.length).getD i 0 = _
    rw [List.getD_eq_getElem _ _ (by simpa using hi), List.getElem_map,
      List.getD_eq_getElem _ _ hi]

/-- Witness for C3 at a 2-series panel with lengths 2 and 1. -/
theorem tensor_packer_spec_witness :
    ((∀ ts ∈ [[[1, 1, 1], [2, 2, 2]], [[3, 3, 3]]], 1 ≤ ts.length ∧ ts.length ≤ 2) ∧
     (∀ ts ∈ ([[[1, 1, 1], [2, 2, 2]], [[3, 3, 3]]] : List (List (List Int))),
        ∀ row ∈ ts, row.length = 3)) ∧
    ((∀ i, i < ([[[1, 1, 1], [2, 2, 2]], [[3, 3, 3]]] : List (List (List Int))).length →
      ∀ c, c < 3 →
      (∀ j, j < 2 - (([[[1, 1, 1], [2, 2, 2]], [[3, 3, 3]]] :
            List (List (List Int))).getD i []).length →
        (((createTensor 3 2 [[[1, 1, 1], [2, 2, 2]], [[3, 3, 3]]]
            [[[7]], [[8]]]).1.getD i []).getD c []).getD j 0 = 0) ∧
      (∀ j, j < (([[[1, 1, 1], [2, 2, 2]], [[3, 3, 3]]] :
            List (List (List Int))).getD i []).length →
        (((createTensor 3 2 [[[1, 1, 1], [2, 2, 2]], [[3, 3, 3]]]
            [[[7]], [[8]]]).1.getD i []).getD c []).getD
            (2 - (([[[1, 1, 1], [2, 2, 2]], [[3, 3, 3]]] :
              List (List (List Int))).getD i []).length + j) 0
          = ((([[[1, 1, 1], [2, 2, 2]], [[3, 3, 3]]] :
              List (List (List Int))).getD i []).getD j []).getD c 0)) ∧
    (createTensor 3 2 [[[1, 1, 1], [2, 2, 2]], [[3, 3, 3]]] [[[7]], [[8]]]).2.1
      = ([[[7]], [[8]]] : List (List (List Int))).flatten ∧
    (∀ i, i < ([[[1, 1, 1], [2, 2, 2]], [[3, 3, 3]]] : List (List (List Int))).length →
      (createTensor 3 2 [[[1, 1, 1], [2, 2, 2]], [[3, 3, 3]]] [[[7]], [[8]]]).2.2.getD i 0
        = (([[[1, 1, 1], [2, 2, 2]], [[3, 3, 3]]] :
            List (List (List Int))).getD i []).length)) :=
  ⟨⟨by decide, by decide⟩,
   tensor_packer_spec 3 2 [[[1, 1, 1], [2, 2, 2]], [[3, 3, 3]]] [[[7]], [[8]]]
     (by decide) (by decide)⟩

/-- A concatenation of equal-length blocks has length `blocks * N`. -/
theorem length_flatMap_const {α β : Type} (l : List α) (f : α → List β) (N : Nat)
    (h : ∀ a, (f a).length = N) : (l.flatMap f).length = l.length * N := by
  induction l with
  | nil => simp
  | cons x t ih =>
    simp only [List.flatMap_cons, List.length_append, h, ih, List.length_cons]
    ring

/-- Indexing into a concatenation of equal-length blocks: position
`a * N + k` falls in block `a` at offset `k`. -/
theorem getD_flatMap_const {α β : Type} (l : List α) (f : α → List β) (N : Nat)
    (h : ∀ a, (f a).length = N) (a k : Nat) (ha : a < l.length) (hk : k < N)
    (d0 : β) (dl : α) :
    (l.flatMap f).getD (a * N + k) d0 = (f (l.getD a dl)).getD k d0 := by
  induction l generalizing a with
  | nil => exact absurd ha (by simp)
  | cons x t ih =>
    cases a with
    | zero =>
      simp only [List.flatMap_cons, Nat.zero_mul, Nat.zero_add, List.getD_cons_zero]
      rw [List.getD_append _ _ _ _ (by rw [h]; exact hk)]
    | succ a' =>
      have hexp : (a' + 1) * N = a' * N + N := by ring
      simp only [List.flatMap_cons]
      rw [List.getD_append_right _ _ _ _ (by rw [h]; omega)]
      have hidx : (a' + 1) * N + k - (f x).length = a' * N + k := by rw [h]; omega
      rw [hidx, List.getD_cons_succ]
      exact ih a' (by simpa using ha)

/-- Claim C2: the Window Extractor yields exactly
`(paddedLen - W) / S + 1` windows per selected series — the same count for
every series in the call — ordered first by series in selection order and
then by ascending start position `k * S` within each series, and the static
row / series index of each selected series is replicated once per window. -/
theorem window_extractor_spec (d : Dataset) (sel : List Nat)
    (hsel : sel ≠ [])
    (hvalid : ∀ i ∈ sel, i < d.ts_tensor.length)
    (hshape : ∀ s ∈ d.ts_tensor,
      s.length = d.t_cols.length ∧ ∀ ch ∈ s, ch.length = d.max_len)
    (hW : d.windows_size ≤ paddedLen d)
    (hstep : 1 ≤ d.idx_to_sample_freq) :
    (windowsOf d sel).length
        = sel.length * ((paddedLen d - d.windows_size) / d.idx_to_sample_freq + 1) ∧
    (∀ a, a < sel.length →
      ∀ k, k < (paddedLen d - d.windows_size) / d.idx_to_sample_freq + 1 →
        (windowsOf d sel).getD
            (a * ((paddedLen d - d.windows_size) / d.idx_to_sample_freq + 1) + k) []
          = (d.ts_tensor.getD (sel.getD a 0) []).map
              (fun ch => ((padRow d ch).drop (k * d.idx_to_sample_freq)).take
                d.windows_size)) ∧
    winTs d sel = sel.flatMap (fun i =>
      List.replicate ((paddedLen d - d.windows_size) / d.idx_to_sample_freq + 1) i) ∧
    winStat d sel = sel.flatMap (fun i =>
      List.replicate ((paddedLen d - d.windows_size) / d.idx_to_sample_freq + 1)
        (d.s_matrix.getD i [])) := by
  have hN : numWindows d = (paddedLen d - d.windows_size) / d.idx_to_sample_freq + 1 := by
    rw [numWindows, if_pos hW]
  have hlen : ∀ i : Nat, (seriesWindows d (d.ts_tensor.getD i [])).length
      = (paddedLen d - d.windows_size) / d.idx_to_sample_freq + 1 := by
    intro i
    rw [seriesWindows, List.length_map, List.length_range, hN]
  have h1 : (windowsOf d sel).length
      = sel.length * ((paddedLen d - d.windows_size) / d.idx_to_sample_freq + 1) :=
    length_flatMap_const _ _ _ hlen
  have hwps : (sel.flatMap (fun i => seriesWindows d (d.ts_tensor.getD i []))).length
        / sel.length
      = (paddedLen d - d.windows_size) / d.idx_to_sample_freq + 1 := by
    rw [length_flatMap_const _ _ _ hlen]
    exact Nat.mul_div_cancel_left _ (List.length_pos.mpr hsel)
  refine ⟨h1, ?_, ?_, ?_⟩
  · intro a ha k hk
    rw [show windowsOf d sel
        = sel.flatMap (fun i => seriesWindows d (d.ts_tensor.getD i [])) from rfl]
    rw [getD_flatMap_const sel _ _ hlen a k ha hk [] 0]
    rw [seriesWindows, List.getD_eq_getElem _ _ (by simpa [hN] using hk),
      List.getElem_map, List.getElem_range]
  · show sel.flatMap (fun i => List.replicate
        ((sel.flatMap (fun i => seriesWindows d (d.ts_tensor.getD i []))).length
          / sel.length) i) = _
    rw [hwps]
  · show sel.flatMap (fun i => List.replicate
        ((sel.flatMap (fun i => seriesWindows d (d.ts_tensor.getD i []))).length
          / sel.length) (d.s_matrix.getD i [])) = _
    rw [hwps]

/-- Witness for C2 at `exA` with the explicit selection `[1, 0]`. -/
theorem window_extractor_spec_witness :
    (([1, 0] : List Nat) ≠ [] ∧
     (∀ i ∈ ([1, 0] : List Nat), i < exA.ts_tensor.length) ∧
     (∀ s ∈ exA.ts_tensor,
        s.length = exA.t_cols.length ∧ ∀ ch ∈ s, ch.length = exA.max_len) ∧
     exA.windows_size ≤ paddedLen exA ∧
     1 ≤ exA.idx_to_sample_freq) ∧
    ((windowsOf exA [1, 0]).length
        = ([1, 0] : List Nat).length
            * ((paddedLen exA - exA.windows_size) / exA.idx_to_sample_freq + 1) ∧
    (∀ a, a < ([1, 0] : List Nat).length →
      ∀ k, k < (paddedLen exA - exA.windows_size) / exA.idx_to_sample_freq + 1 →
        (windowsOf exA [1, 0]).getD
            (a * ((paddedLen exA - exA.windows_size) / exA.idx_to_sample_freq + 1) + k) []
          = (exA.ts_tensor.getD (([1, 0] : List Nat).getD a 0) []).map
              (fun ch => ((padRow exA ch).drop (k * exA.idx_to_sample_freq)).take
                exA.windows_size)) ∧
    winTs exA [1, 0] = ([1, 0] : List Nat).flatMap (fun i =>
      List.replicate ((paddedLen exA - exA.windows_size) / exA.idx_to_sample_freq + 1) i) ∧
    winStat exA [1, 0] = ([1, 0] : List Nat).flatMap (fun i =>
      List.replicate ((paddedLen exA - exA.windows_size) / exA.idx_to_sample_freq + 1)
        (exA.s_matrix.getD i []))) :=
  ⟨⟨by decide, by decide, by decide, by decide, by decide⟩,
   window_extractor_spec exA [1, 0] (by decide) (by decide) (by decide)
     (by decide) (by decide)⟩

/-- A list of 0/1 values sums to at most its length. -/
theorem sum01_le_length (l : List Int) (h : ∀ x ∈ l, x = 0 ∨ x = 1) :
    l.sum ≤ (l.length : Int) := by
  induction l with
  | nil => simp
  | cons x t ih =>
    have hx := h x (List.mem_cons_self x t)
    have ht := ih (fun y hy => h y (List.mem_cons_of_mem x hy))
    simp only [List.sum_cons, List.length_cons]
    push_cast
    rcases hx with h0 | h1 <;> omega

/-- A list of 0/1 values sums to its length exactly when every value is 1. -/
theorem sum01_eq_length_iff (l : List Int) (h : ∀ x ∈ l, x = 0 ∨ x = 1) :
    l.sum = (l.length : Int) ↔ ∀ x ∈ l, x = 1 := by
  induction l with
  | nil => simp
  | cons x t ih =>
    have hx := h x (List.mem_cons_self x t)
    have hle := sum01_le_length t (fun y hy => h y (List.mem_cons_of_mem x hy))
    have iht := ih (fun y hy => h y (List.mem_cons_of_mem x hy))
    simp only [List.sum_cons, List.length_cons, List.mem_cons]
    constructor
    · intro hsum
      have hx1 : x = 1 := by
        rcases hx with h0 | h1
        · exfalso
          rw [h0] at hsum
          have ht : t.sum = (t.length : Int) + 1 := by push_cast at hsum ⊢; omega
          omega
        · exact h1
      have htsum : t.sum = (t.length : Int) := by
        rw [hx1] at hsum; push_cast at hsum ⊢; omega
      intro y hy
      rcases hy with hy | hy
      · rw [hy]; exact hx1
      · exact iht.mp htsum y hy
    · intro hall
      have hx1 : x = 1 := hall x (Or.inl rfl)
      have : t.sum = (t.length : Int) := iht.mpr (fun y hy => hall y (Or.inr hy))
      rw [hx1, this]; push_cast; omega

/-- `l[-k:]` sums to `k` exactly when the last `k` positions are all 1
(for 0/1 values and `1 ≤ k ≤ l.length`). -/
theorem negTail_sum_iff (l : List Int) (k : Nat) (hk1 : 1 ≤ k) (hk : k ≤ l.length)
    (h : ∀ x ∈ l, x = 0 ∨ x = 1) :
    ((negTail l k).sum = (k : Int)) ↔
      ∀ j, l.length - k ≤ j → j < l.length → l.getD j 0 = 1 := by
  rw [negTail, if_neg (by omega)]
  have hlen : (l.drop (l.length - k)).length = k := by
    rw [List.length_drop]; omega
  have hmem : ∀ x ∈ l.drop (l.length - k), x = 0 ∨ x = 1 :=
    fun x hx => h x (List.mem_of_mem_drop hx)
  rw [show ((k : Int)) = ((l.drop (l.length - k)).length : Int) by rw [hlen]]
  rw [sum01_eq_length_iff _ hmem]
  constructor
  · intro hall j hj1 hj2
    have hidx : j - (l.length - k) < (l.drop (l.length - k)).length := by omega
    have hj' : (l.length - k) + (j - (l.length - k)) = j := by omega
    have hmemj : l.getD j 0 ∈ l.drop (l.length - k) := by
      rw [List.mem_iff_getElem]
      refine ⟨j - (l.length - k), hidx, ?_⟩
      rw [List.getElem_drop, ← List.getD_eq_getElem l 0 (by omega), hj']
    exact hall _ hmemj
  · intro hone x hx
    obtain ⟨n, hn, rfl⟩ := List.mem_iff_getElem.mp hx
    rw [List.getElem_drop]
    have hb : l.length - k + n < l.length := by
      rw [hlen] at hn; omega
    rw [← List.getD_eq_getElem l 0 hb]
    exact hone _ (by omega) hb

/-- `l[:-k]` sums to `l.length - k` exactly when the first `l.length - k`
positions are all 1 (for 0/1 values and `1 ≤ k ≤ l.length`). -/
theorem negDropTail_sum_iff (l : List Int) (k : Nat) (hk1 : 1 ≤ k)
    (hk : k ≤ l.length) (h : ∀ x ∈ l, x = 0 ∨ x = 1) :
    ((negDropTail l k).sum = ((l.length : Int) - (k : Int))) ↔
      ∀ j, j < l.length - k → l.getD j 0 = 1 := by
  rw [negDropTail, if_neg (by omega)]
  have hlen : (l.take (l.length - k)).length = l.length - k := by
    rw [List.length_take]; omega
  have hmem : ∀ x ∈ l.take (l.length - k), x = 0 ∨ x = 1 :=
    fun x hx => h x (List.mem_of_mem_take hx)
  rw [show ((l.length : Int) - (k : Int))
      = (((l.take (l.length - k)).length : Nat) : Int) by rw [hlen]; omega]
  rw [sum01_eq_length_iff _ hmem]
  constructor
  · intro hall j hj
    have hidx : j < (l.take (l.length - k)).length := by omega
    have hjl : j < l.length := by omega
    have hmemj : l.getD j 0 ∈ l.take (l.length - k) := by
      rw [List.mem_iff_getElem]
      refine ⟨j, hidx, ?_⟩
      rw [List.getElem_take, ← List.getD_eq_getElem l 0 hjl]
    exact hall _ hmemj
  · intro hone x hx
    obtain ⟨n, hn, rfl⟩ := List.mem_iff_getElem.mp hx
    rw [List.getElem_take]
    have hb : n < l.length := by omega
    rw [← List.getD_eq_getElem l 0 hb]
    exact hone _ (by rw [hlen] at hn; omega)

/-- Claim C1: a window index is returned by the Samplability Filter iff
(1) every step of the window's last `output_size` positions has
`sample_mask = 1`, (2) with `complete_inputs` enabled every step of the first
`windows_size - output_size` positions has `available_mask = 1` (otherwise
condition (2) defaults to condition (1)), and (3) with `complete_outputs`
enabled every step of the last `output_size + 1` positions has
`available_mask = 1` (otherwise condition (3) defaults to condition (1));
the returned indices are in ascending window order. -/
theorem samplable_filter_spec (d : Dataset) (ws : List Window)
    (hos : 1 ≤ d.output_size)
    (how : d.output_size + 1 ≤ d.windows_size)
    (hsm : ∀ w ∈ ws, (windowChannel d w "sample_mask").length = d.windows_size ∧
      ∀ x ∈ windowChannel d w "sample_mask", x = 0 ∨ x = 1)
    (hav : ∀ w ∈ ws, (windowChannel d w "available_mask").length = d.windows_size ∧
      ∀ x ∈ windowChannel d w "available_mask", x = 0 ∨ x = 1) :
    (∀ i, i ∈ samplableIdxs d ws ↔
      (i < ws.length ∧
       (∀ j, d.windows_size - d.output_size ≤ j → j < d.windows_size →
         (windowChannel d (ws.getD i []) "sample_mask").getD j 0 = 1) ∧
       (if d.complete_inputs then
          ∀ j, j < d.windows_size - d.output_size →
            (windowChannel d (ws.getD i []) "available_mask").getD j 0 = 1
        else
          ∀ j, d.windows_size - d.output_size ≤ j → j < d.windows_size →
            (windowChannel d (ws.getD i []) "sample_mask").getD j 0 = 1) ∧
       (if d.complete_outputs then
          ∀ j, d.windows_size - (d.output_size + 1) ≤ j → j < d.windows_size →
            (windowChannel d (ws.getD i []) "available_mask").getD j 0 = 1
        else
          ∀ j, d.windows_size - d.output_size ≤ j → j < d.windows_size →
            (windowChannel d (ws.getD i []) "sample_mask").getD j 0 = 1))) ∧
    List.Pairwise (· < ·) (samplableIdxs d ws) := by
  constructor
  · intro i
    simp only [samplableIdxs, List.mem_filter, List.mem_range]
    refine and_congr_right fun hi => ?_
    have hw : ws.getD i [] ∈ ws := by
      rw [List.getD_eq_getElem _ _ hi]
      exact List.getElem_mem hi
    obtain ⟨hsl, hs01⟩ := hsm _ hw
    obtain ⟨hal, ha01⟩ := hav _ hw
    have hP1 : sampleCond d (ws.getD i []) = true ↔
        ∀ j, d.windows_size - d.output_size ≤ j → j < d.windows_size →
          (windowChannel d (ws.getD i []) "sample_mask").getD j 0 = 1 := by
      rw [sampleCond, beq_iff_eq]
      have hkle : d.output_size ≤ (windowChannel d (ws.getD i []) "sample_mask").length := by
        rw [hsl]; omega
      have hiff := negTail_sum_iff _ d.output_size hos hkle hs01
      rw [hsl] at hiff
      exact hiff
    have hPin : avCondIn d (ws.getD i []) = true ↔
        (if d.complete_inputs then
          ∀ j, j < d.windows_size - d.output_size →
            (windowChannel d (ws.getD i []) "available_mask").getD j 0 = 1
        else
          ∀ j, d.windows_size - d.output_size ≤ j → j < d.windows_size →
            (windowChannel d (ws.getD i []) "sample_mask").getD j 0 = 1) := by
      cases hci : d.complete_inputs with
      | false =>
        rw [avCondIn, hci, if_neg (by simp), if_neg (by simp)]
        exact hP1
      | true =>
        rw [avCondIn, hci, if_pos rfl, if_pos rfl, beq_iff_eq]
        have hkle : d.output_size
            ≤ (windowChannel d (ws.getD i []) "available_mask").length := by
          rw [hal]; omega
        have hiff := negDropTail_sum_iff _ d.output_size hos hkle ha01
        rw [hal] at hiff
        exact hiff
    have hPout : avCondOut d (ws.getD i []) = true ↔
        (if d.complete_outputs then
          ∀ j, d.windows_size - (d.output_size + 1) ≤ j → j < d.windows_size →
            (windowChannel d (ws.getD i []) "available_mask").getD j 0 = 1
        else
          ∀ j, d.windows_size - d.output_size ≤ j → j < d.windows_size →
            (windowChannel d (ws.getD i []) "sample_mask").getD j 0 = 1) := by
      cases hco : d.complete_outputs with
      | false =>
        rw [avCondOut, hco, if_neg (by simp), if_neg (by simp)]
        exact hP1
      | true =>
        rw [avCondOut, hco, if_pos rfl, if_pos rfl, beq_iff_eq]
        have hkle : d.output_size + 1
            ≤ (windowChannel d (ws.getD i []) "available_mask").length := by
          rw [hal]; omega
        have hiff := negTail_sum_iff _ (d.output_size + 1) (by omega) hkle ha01
        rw [hal] at hiff
        push_cast at hiff
        exact hiff
    simp only [Bool.and_eq_true]
    rw [hP1, hPin, hPout]
    tauto
  · rw [samplableIdxs]
    exact List.Pairwise.filter _ (List.pairwise_lt_range _)

/-- Witness for C1 at `exA`'s windows for the selection `[0, 1]`. -/
theorem samplable_filter_spec_witness :
    (1 ≤ exA.output_size ∧ exA.output_size + 1 ≤ exA.windows_size ∧
     (∀ w ∈ windowsOf exA [0, 1],
       (windowChannel exA w "sample_mask").length = exA.windows_size ∧
       ∀ x ∈ windowChannel exA w "sample_mask", x = 0 ∨ x = 1) ∧
     (∀ w ∈ windowsOf exA [0, 1],
       (windowChannel exA w "available_mask").length = exA.windows_size ∧
       ∀ x ∈ windowChannel exA w "available_mask", x = 0 ∨ x = 1)) ∧
    ((∀ i, i ∈ samplableIdxs exA (windowsOf exA [0, 1]) ↔
      (i < (windowsOf exA [0, 1]).length ∧
       (∀ j, exA.windows_size - exA.output_size ≤ j → j < exA.windows_size →
         (windowChannel exA ((windowsOf exA [0, 1]).getD i []) "sample_mask").getD j 0
           = 1) ∧
       (if exA.complete_inputs then
          ∀ j, j < exA.windows_size - exA.output_size →
            (windowChannel exA ((windowsOf exA [0, 1]).getD i [])
              "available_mask").getD j 0 = 1
        else
          ∀ j, exA.windows_size - exA.output_size ≤ j → j < exA.windows_size →
            (windowChannel exA ((windowsOf exA [0, 1]).getD i [])
              "sample_mask").getD j 0 = 1) ∧
       (if exA.complete_outputs then
          ∀ j, exA.windows_size - (exA.output_size + 1) ≤ j → j < exA.windows_size →
            (windowChannel exA ((windowsOf exA [0, 1]).getD i [])
              "available_mask").getD j 0 = 1
        else
          ∀ j, exA.windows_size - exA.output_size ≤ j → j < exA.windows_size →
            (windowChannel exA ((windowsOf exA [0, 1]).getD i [])
              "sample_mask").getD j 0 = 1))) ∧
    List.Pairwise (· < ·) (samplableIdxs exA (windowsOf exA [0, 1]))) :=
  ⟨⟨by decide, by decide, by decide, by decide⟩,
   samplable_filter_spec exA (windowsOf exA [0, 1]) (by decide) (by decide)
     (by decide) (by decide)⟩

/-- In a nondecreasing list, membership of the dropped tail is upward closed:
anything strictly larger than a tail element is itself in the tail. -/
theorem mem_drop_of_lt_of_mem {s : List Nat} (hs : s.Sorted (· ≤ ·)) {m x y : Nat}
    (hx : x ∈ s.drop m) (hy : y ∈ s) (hxy : x < y) : y ∈ s.drop m := by
  by_contra hns
  have hsplit : s.take m ++ s.drop m = s := List.take_append_drop m s
  have hy' : y ∈ s.take m ++ s.drop m := by rw [hsplit]; exact hy
  rcases List.mem_append.mp hy' with hyt | hyd
  · have hpair : List.Pairwise (· ≤ ·) (s.take m ++ s.drop m) := by
      rw [hsplit]; exact hs
    have hle : y ≤ x := (List.pairwise_append.mp hpair).2.2 y hyt x hx
    omega
  · exact hns hyd

/-- Counting the members of a duplicate-free sub-collection inside a
duplicate-free list gives exactly the sub-collection's size. -/
theorem length_filter_mem {l t : List Nat} (hl : l.Nodup) (ht : t.Nodup)
    (hsub : ∀ x ∈ t, x ∈ l) :
    (l.filter (fun x => x ∈ t)).length = t.length := by
  apply Nat.le_antisymm
  · apply List.Subperm.length_le
    apply List.subperm_of_subset (hl.filter _)
    intro x hx
    have := (List.mem_filter.mp hx).2
    simpa using this
  · apply List.Subperm.length_le
    apply List.subperm_of_subset ht
    intro x hx
    rw [List.mem_filter]
    exact ⟨hsub x hx, by simpa⟩

/-- A default-mask row is marked held-out exactly when its timestamp lies in
the sorted tail of its series. -/
theorem defaultMaskRow_sample_eq (Y : List (Nat × Nat)) (k : Nat) (is_test : Bool)
    (p : Nat × Nat) :
    (defaultMaskRow Y k is_test p).sample_mask = (if is_test then (1 : Int) else 0) ↔
      p.2 ∈ tailN (sortedDsOf Y p.1) k := by
  simp only [defaultMaskRow]
  by_cases hmem : p.2 ∈ tailN (sortedDsOf Y p.1) k
  · simp only [if_pos hmem]
    cases is_test <;> simp [hmem]
  · simp only [if_neg hmem]
    cases is_test <;> simp [hmem]

/-- A default-mask row's `sample_mask` is either the held-out mark or its
complement. -/
theorem defaultMaskRow_sample_cases (Y : List (Nat × Nat)) (k : Nat)
    (is_test : Bool) (p : Nat × Nat) :
    (defaultMaskRow Y k is_test p).sample_mask = (if is_test then (1 : Int) else 0) ∨
      (defaultMaskRow Y k is_test p).sample_mask
        = 1 - (if is_test then (1 : Int) else 0) := by
  simp only [defaultMaskRow]
  by_cases hmem : p.2 ∈ tailN (sortedDsOf Y p.1) k
  · simp only [if_pos hmem]
    cases is_test
    · left; simp
    · left; simp
  · simp only [if_neg hmem]
    cases is_test
    · right; simp
    · right; simp

/-- Claim C4: the Mask Builder keeps the row count and the `(uid, ds)` keys,
sets `available_mask = 1` everywhere, marks per series exactly
`min k series_length` rows (the trailing timestamps by sorted order) with the
held-out value (`0`, or `1` when `is_test` inverts), the marked set is upward
closed in the timestamp order within a series (so all earlier timestamps
carry the opposite value), and every `sample_mask` value is the mark or its
complement. -/
theorem mask_builder_spec (Y : List (Nat × Nat)) (k : Nat) (is_test : Bool)
    (hY : Y.Nodup) :
    (getDefaultMaskDf Y k is_test).length = Y.length ∧
    (∀ r ∈ getDefaultMaskDf Y k is_test, r.available_mask = 1) ∧
    (∀ p, p < Y.length →
      ((getDefaultMaskDf Y k is_test).getD p ⟨0, 0, 0, 0⟩).uid = (Y.getD p (0, 0)).1 ∧
      ((getDefaultMaskDf Y k is_test).getD p ⟨0, 0, 0, 0⟩).ds = (Y.getD p (0, 0)).2) ∧
    (∀ u, (((getDefaultMaskDf Y k is_test).filter (fun r => r.uid == u)).filter
        (fun r => r.sample_mask == (if is_test then (1 : Int) else 0))).length
      = min k (Y.filter (fun p => p.1 == u)).length) ∧
    (∀ r ∈ getDefaultMaskDf Y k is_test, ∀ s ∈ getDefaultMaskDf Y k is_test,
      r.uid = s.uid → r.sample_mask = (if is_test then (1 : Int) else 0) →
      r.ds < s.ds → s.sample_mask = (if is_test then (1 : Int) else 0)) ∧
    (∀ r ∈ getDefaultMaskDf Y k is_test,
      r.sample_mask = (if is_test then (1 : Int) else 0) ∨
      r.sample_mask = 1 - (if is_test then (1 : Int) else 0)) := by
  refine ⟨by simp [getDefaultMaskDf], ?_, ?_, ?_, ?_, ?_⟩
  · intro r hr
    obtain ⟨p, hp, rfl⟩ := List.mem_map.mp hr
    rfl
  · intro p hp
    have hb : p < (Y.map (defaultMaskRow Y k is_test)).length := by simpa using hp
    constructor
    · show ((Y.map (defaultMaskRow Y k is_test)).getD p ⟨0, 0, 0, 0⟩).uid = _
      rw [List.getD_eq_getElem _ _ hb, List.getElem_map, List.getD_eq_getElem _ _ hp]
      rfl
    · show ((Y.map (defaultMaskRow Y k is_test)).getD p ⟨0, 0, 0, 0⟩).ds = _
      rw [List.getD_eq_getElem _ _ hb, List.getElem_map, List.getD_eq_getElem _ _ hp]
      rfl
  · intro u
    rw [getDefaultMaskDf, List.filter_map, List.filter_map, List.length_map]
    have huid_comp : ((fun r : MaskRow => r.uid == u) ∘ defaultMaskRow Y k is_test)
        = (fun p : Nat × Nat => p.1 == u) := by
      funext p; rfl
    have hq_comp : ((fun r : MaskRow =>
          r.sample_mask == (if is_test then (1 : Int) else 0))
            ∘ defaultMaskRow Y k is_test)
        = (fun p : Nat × Nat => decide (p.2 ∈ tailN (sortedDsOf Y p.1) k)) := by
      funext p
      rw [Function.comp_apply, Bool.eq_iff_iff, beq_iff_eq, decide_eq_true_iff]
      exact defaultMaskRow_sample_eq Y k is_test p
    rw [huid_comp, hq_comp]
    have hfix : ∀ p ∈ Y.filter (fun p : Nat × Nat => p.1 == u),
        (decide (p.2 ∈ tailN (sortedDsOf Y p.1) k) : Bool)
          = decide (p.2 ∈ tailN (sortedDsOf Y u) k) := by
      intro p hp
      have hpu : p.1 = u := by simpa using (List.mem_filter.mp hp).2
      rw [hpu]
    rw [List.filter_congr hfix]
    have hYu : (Y.filter (fun p : Nat × Nat => p.1 == u)).Nodup := hY.filter _
    have hds : ((Y.filter (fun p : Nat × Nat => p.1 == u)).map Prod.snd).Nodup := by
      refine List.Nodup.map_on ?_ hYu
      intro x hx y hy hxy
      have hx1 : x.1 = u := by simpa using (List.mem_filter.mp hx).2
      have hy1 : y.1 = u := by simpa using (List.mem_filter.mp hy).2
      exact Prod.ext (hx1.trans hy1.symm) hxy
    have hperm := List.perm_insertionSort (· ≤ ·)
      ((Y.filter (fun p : Nat × Nat => p.1 == u)).map Prod.snd)
    have hsortnd : (sortedDsOf Y u).Nodup := hperm.nodup_iff.mpr hds
    have hT_nd : (tailN (sortedDsOf Y u) k).Nodup :=
      List.Nodup.sublist (List.drop_sublist _ _) hsortnd
    have hTsub : ∀ x ∈ tailN (sortedDsOf Y u) k,
        x ∈ (Y.filter (fun p : Nat × Nat => p.1 == u)).map Prod.snd :=
      fun x hx => hperm.mem_iff.mp (List.mem_of_mem_drop hx)
    have hcount : (((Y.filter (fun p : Nat × Nat => p.1 == u)).map Prod.snd).filter
        (fun x => x ∈ tailN (sortedDsOf Y u) k)).length
          = (tailN (sortedDsOf Y u) k).length :=
      length_filter_mem hds hT_nd hTsub
    have hswap : (((Y.filter (fun p : Nat × Nat => p.1 == u)).map Prod.snd).filter
        (fun x => x ∈ tailN (sortedDsOf Y u) k)).length
          = ((Y.filter (fun p : Nat × Nat => p.1 == u)).filter
              (fun p => decide (p.2 ∈ tailN (sortedDsOf Y u) k))).length := by
      rw [List.filter_map, List.length_map]
      rfl
    rw [← hswap, hcount]
    have hTlen : (tailN (sortedDsOf Y u) k).length
        = min k (Y.filter (fun p : Nat × Nat => p.1 == u)).length := by
      have hslen : (sortedDsOf Y u).length
          = (Y.filter (fun p : Nat × Nat => p.1 == u)).length := by
        rw [sortedDsOf]
        rw [(List.perm_insertionSort _ _).length_eq, List.length_map]
      rw [tailN, List.length_drop, hslen]
      omega
    exact hTlen
  · intro r hr s hs huid hmark hds
    obtain ⟨p, hp, rfl⟩ := List.mem_map.mp hr
    obtain ⟨q, hq, rfl⟩ := List.mem_map.mp hs
    have hpq : p.1 = q.1 := huid
    have hds' : p.2 < q.2 := hds
    rw [defaultMaskRow_sample_eq] at hmark ⊢
    rw [← hpq]
    have hq2 : q.2 ∈ sortedDsOf Y p.1 := by
      rw [sortedDsOf, (List.perm_insertionSort _ _).mem_iff]
      exact List.mem_map.mpr
        ⟨q, List.mem_filter.mpr ⟨hq, by simp [hpq]⟩, rfl⟩
    have hsorted : (sortedDsOf Y p.1).Sorted (· ≤ ·) :=
      List.sorted_insertionSort _ _
    simp only [tailN] at hmark ⊢
    exact mem_drop_of_lt_of_mem hsorted hmark hq2 hds'
  · intro r hr
    obtain ⟨p, hp, rfl⟩ := List.mem_map.mp hr
    exact defaultMaskRow_sample_cases Y k is_test p

/-- Witness for C4 at a 2-series target table with `ds_in_test = 2`. -/
theorem mask_builder_spec_witness :
    ([(0, 0), (0, 1), (0, 2), (1, 5), (1, 6)] : List (Nat × Nat)).Nodup ∧
    ((getDefaultMaskDf [(0, 0), (0, 1), (0, 2), (1, 5), (1, 6)] 2 false).length
        = ([(0, 0), (0, 1), (0, 2), (1, 5), (1, 6)] : List (Nat × Nat)).length ∧
    (∀ r ∈ getDefaultMaskDf [(0, 0), (0, 1), (0, 2), (1, 5), (1, 6)] 2 false,
      r.available_mask = 1) ∧
    (∀ p, p < ([(0, 0), (0, 1), (0, 2), (1, 5), (1, 6)] : List (Nat × Nat)).length →
      ((getDefaultMaskDf [(0, 0), (0, 1), (0, 2), (1, 5), (1, 6)] 2 false).getD p
          ⟨0, 0, 0, 0⟩).uid
        = (([(0, 0), (0, 1), (0, 2), (1, 5), (1, 6)] :
            List (Nat × Nat)).getD p (0, 0)).1 ∧
      ((getDefaultMaskDf [(0, 0), (0, 1), (0, 2), (1, 5), (1, 6)] 2 false).getD p
          ⟨0, 0, 0, 0⟩).ds
        = (([(0, 0), (0, 1), (0, 2), (1, 5), (1, 6)] :
            List (Nat × Nat)).getD p (0, 0)).2) ∧
    (∀ u, (((getDefaultMaskDf [(0, 0), (0, 1), (0, 2), (1, 5), (1, 6)] 2 false).filter
        (fun r => r.uid == u)).filter
        (fun r => r.sample_mask == (if false then (1 : Int) else 0))).length
      = min 2 (([(0, 0), (0, 1), (0, 2), (1, 5), (1, 6)] : List (Nat × Nat)).filter
          (fun p => p.1 == u)).length) ∧
    (∀ r ∈ getDefaultMaskDf [(0, 0), (0, 1), (0, 2), (1, 5), (1, 6)] 2 false,
      ∀ s ∈ getDefaultMaskDf [(0, 0), (0, 1), (0, 2), (1, 5), (1, 6)] 2 false,
      r.uid = s.uid → r.sample_mask = (if false then (1 : Int) else 0) →
      r.ds < s.ds → s.sample_mask = (if false then (1 : Int) else 0)) ∧
    (∀ r ∈ getDefaultMaskDf [(0, 0), (0, 1), (0, 2), (1, 5), (1, 6)] 2 false,
      r.sample_mask = (if false then (1 : Int) else 0) ∨
      r.sample_mask = 1 - (if false then (1 : Int) else 0))) :=
  ⟨by decide,
   mask_builder_spec [(0, 0), (0, 1), (0, 2), (1, 5), (1, 6)] 2 false (by decide)⟩

/-- Unfolding of `rle` on a two-element head, given the encoding of the tail. -/
theorem rle_cons_cons (a b : Nat) (t : List Nat) {c : Nat} {r : List (Nat × Nat)}
    (h : rle (b :: t) = (b, c) :: r) :
    rle (a :: b :: t) = if a = b then (a, c + 1) :: r else (a, 1) :: (b, c) :: r := by
  have h0 : rle (a :: b :: t) = match rle (b :: t) with
    | [] => [(a, 1)]
    | (bb, cc) :: rr => if a = bb then (a, cc + 1) :: rr else (a, 1) :: (bb, cc) :: rr := rfl
  rw [h0, h]

/-- `rle (a :: t)` starts with a run of `a` of positive length, and every
other run also has positive length. -/
theorem rle_head : ∀ (t : List Nat) (a : Nat), ∃ c r, rle (a :: t) = (a, c) :: r ∧
    1 ≤ c ∧ ∀ p ∈ r, 1 ≤ p.2 := by
  intro t
  induction t with
  | nil =>
    intro a
    exact ⟨1, [], rfl, le_refl 1, by simp⟩
  | cons b t' ih =>
    intro a
    obtain ⟨c, r, hr, hc, hrpos⟩ := ih b
    by_cases hab : a = b
    · refine ⟨c + 1, r, ?_, by omega, hrpos⟩
      rw [rle_cons_cons a b t' hr, if_pos hab]
    · refine ⟨1, (b, c) :: r, ?_, le_refl 1, ?_⟩
      · rw [rle_cons_cons a b t' hr, if_neg hab]
      · intro p hp
        rcases List.mem_cons.mp hp with rfl | hp'
        · exact hc
        · exact hrpos p hp'

/-- Every run length in an `rle` encoding is positive. -/
theorem rle_snd_pos (l : List Nat) : ∀ p ∈ rle l, 1 ≤ p.2 := by
  cases l with
  | nil => simp [rle]
  | cons a t =>
    obtain ⟨c, r, hr, hc, hrpos⟩ := rle_head t a
    rw [hr]
    intro p hp
    rcases List.mem_cons.mp hp with rfl | hp'
    · exact hc
    · exact hrpos p hp'

/-- Prefix sums of positive values are positive. -/
theorem cumsum_pos : ∀ (l : List Nat), (∀ x ∈ l, 1 ≤ x) → ∀ y ∈ cumsum l, 1 ≤ y := by
  intro l
  induction l with
  | nil => simp [cumsum]
  | cons a t ih =>
    intro h y hy
    rw [show cumsum (a :: t) = a :: (cumsum t).map (a + ·) from rfl] at hy
    rcases List.mem_cons.mp hy with rfl | hy'
    · exact h _ (List.mem_cons_self _ _)
    · obtain ⟨z, hz, rfl⟩ := List.mem_map.mp hy'
      have := h _ (List.mem_cons_self _ _)
      omega

/-- Peeling one element off `specLastWindowSel`: position 0 stays exactly
when its value does not occur later, and tail positions shift by one. -/
theorem specLastWindowSel_cons (a : Nat) (t : List Nat) :
    specLastWindowSel (a :: t) =
      (if t.all (fun x => x != a) then [0] else [])
        ++ (specLastWindowSel t).map (· + 1) := by
  rw [specLastWindowSel, show (a :: t).length = t.length + 1 from rfl,
    List.range_succ_eq_map, List.filter_cons, List.filter_map]
  have hcomp : ∀ q ∈ List.range t.length,
      ((fun p => ((a :: t).drop (p + 1)).all (fun x => x != (a :: t).getD p 0))
          ∘ Nat.succ) q
        = (fun p => (t.drop (p + 1)).all (fun x => x != t.getD p 0)) q := by
    intro q hq
    rfl
  rw [List.filter_congr hcomp]
  have hmapeq : (List.map (fun p => (t.drop (p + 1)).all (fun x => x != t.getD p 0))
      (List.range t.length)).length = (List.range t.length).length := List.length_map ..
  have hsucc : List.map Nat.succ
        ((List.range t.length).filter
          (fun p => (t.drop (p + 1)).all (fun x => x != t.getD p 0)))
      = (specLastWindowSel t).map (· + 1) := by
    rw [specLastWindowSel]
  by_cases h0 : t.all (fun x => x != a)
  · rw [if_pos h0, if_pos (show ((a :: t).drop (0 + 1)).all
        (fun x => x != (a :: t).getD 0 0) = true from h0)]
    rw [hsucc, List.singleton_append]
  · rw [if_neg h0, if_neg (show ¬(((a :: t).drop (0 + 1)).all
        (fun x => x != (a :: t).getD 0 0) = true) from h0)]
    rw [hsucc, List.nil_append]

/-- Core of the last-window analysis: on a nondecreasing list, the positions
`cumsum (run lengths) - 1` are exactly the positions whose value does not
occur again later (the last position of each run). -/
theorem cumsum_cons (a : Nat) (t : List Nat) :
    cumsum (a :: t) = a :: (cumsum t).map (a + ·) := rfl

theorem cumsum_rle_eq_spec : ∀ (l : List Nat), l.Sorted (· ≤ ·) →
    (cumsum ((rle l).map Prod.snd)).map (· - 1) = specLastWindowSel l := by
  intro l
  induction l with
  | nil => intro _; rfl
  | cons a t ih =>
    intro hsort
    have hst : t.Sorted (· ≤ ·) := (List.sorted_cons.mp hsort).2
    have hall : ∀ x ∈ t, a ≤ x := (List.sorted_cons.mp hsort).1
    have ihspec := ih hst
    cases t with
    | nil => rfl
    | cons b t' =>
      obtain ⟨c, r, hr, hc, hrpos⟩ := rle_head t' b
      have hab' : a ≤ b := hall b (List.mem_cons_self b t')
      by_cases hab : a = b
      · have hrle : rle (a :: b :: t') = (a, c + 1) :: r := by
          rw [rle_cons_cons a b t' hr, if_pos hab]
        have hallfalse : ((b :: t').all (fun x => x != a)) = false := by
          subst hab
          simp [List.all_cons]
        rw [hrle, specLastWindowSel_cons, hallfalse,
          if_neg (by simp : ¬(false = true)), List.nil_append, ← ihspec, hr]
        simp only [List.map_cons, cumsum_cons, List.map_map]
        congr 1
        · omega
        · apply List.map_congr_left
          intro x hx
          simp only [Function.comp_apply]
          omega
      · have hrle : rle (a :: b :: t') = (a, 1) :: (b, c) :: r := by
          rw [rle_cons_cons a b t' hr, if_neg hab]
        have halltrue : ((b :: t').all (fun x => x != a)) = true := by
          rw [List.all_eq_true]
          intro x hx
          rw [bne_iff_ne]
          rcases List.mem_cons.mp hx with rfl | hxt'
          · exact fun h => hab h.symm
          · intro hxa
            have hbx : b ≤ x := (List.sorted_cons.mp hst).1 x hxt'
            omega
        rw [hrle, specLastWindowSel_cons, halltrue, if_pos rfl,
          List.singleton_append, ← ihspec, hr]
        simp only [List.map_cons, cumsum_cons, List.map_map]
        congr 1
        congr 1
        · omega
        · apply List.map_congr_left
          intro x hx
          simp only [Function.comp_apply]
          omega

/-- On a nondecreasing series vector, the source's `unique`/`cumsum`
selection equals the last-occurrence selection. -/
theorem lastIdxsOf_sorted (l : List Nat) (h : l.Sorted (· ≤ ·)) :
    lastIdxsOf l = specLastWindowSel l := by
  rw [lastIdxsOf, List.Sorted.insertionSort_eq h]
  exact cumsum_rle_eq_spec l h

/-- Membership in `specLastWindowSel`: the position is in range and its value
never recurs later. -/
theorem specLastWindowSel_mem {ts : List Nat} {p : Nat}
    (hp : p ∈ specLastWindowSel ts) :
    p < ts.length ∧ ∀ q, p < q → q < ts.length → ts.getD q 0 ≠ ts.getD p 0 := by
  rw [specLastWindowSel, List.mem_filter, List.mem_range] at hp
  obtain ⟨hplt, hcond⟩ := hp
  refine ⟨hplt, ?_⟩
  intro q hpq hqlt
  have hmem : ts.getD q 0 ∈ ts.drop (p + 1) := by
    rw [List.mem_iff_getElem]
    refine ⟨q - (p + 1), by rw [List.length_drop]; omega, ?_⟩
    rw [List.getElem_drop,
      ← List.getD_eq_getElem ts 0 (show p + 1 + (q - (p + 1)) < ts.length by omega),
      show p + 1 + (q - (p + 1)) = q from by omega]
  exact bne_iff_ne.mp (List.all_eq_true.mp hcond _ hmem)

/-- `specLastWindowSel` is strictly increasing. -/
theorem specLastWindowSel_pairwise (ts : List Nat) :
    List.Pairwise (· < ·) (specLastWindowSel ts) := by
  rw [specLastWindowSel]
  exact List.Pairwise.filter _ (List.pairwise_lt_range _)

/-- The values at the last-occurrence positions are pairwise distinct. -/
theorem specLastWindowSel_map_nodup (ts : List Nat) :
    ((specLastWindowSel ts).map (fun p => ts.getD p 0)).Nodup := by
  show ((specLastWindowSel ts).map fun p => ts.getD p 0).Pairwise (· ≠ ·)
  rw [List.pairwise_map]
  refine List.Pairwise.imp_of_mem ?_ (specLastWindowSel_pairwise ts)
  intro p q hp hq hpq
  have h2 := (specLastWindowSel_mem hp).2
  have hqlt := (specLastWindowSel_mem hq).1
  exact fun heq => h2 q hpq hqlt heq.symm

/-- Replicating each element of a nondecreasing list in place keeps it
nondecreasing. -/
theorem sorted_flatMap_replicate {l : List Nat} (h : l.Sorted (· ≤ ·)) (N : Nat) :
    List.Sorted (· ≤ ·) (l.flatMap (fun i => List.replicate N i)) := by
  induction l with
  | nil => simp
  | cons a t ih =>
    have hst := (List.sorted_cons.mp h).2
    have hall := (List.sorted_cons.mp h).1
    rw [List.flatMap_cons]
    apply List.pairwise_append.mpr
    refine ⟨List.pairwise_replicate.mpr (Or.inr (le_refl a)), ih hst, ?_⟩
    intro x hx y hy
    have hxa := List.eq_of_mem_replicate hx
    obtain ⟨j, hj, hy'⟩ := List.mem_flatMap.mp hy
    have hyj := List.eq_of_mem_replicate hy'
    rw [hxa, hyj]
    exact hall j hj

/-- Reading a nondecreasing list at strictly increasing positions gives a
nondecreasing list. -/
theorem sorted_map_getD {ps l : List Nat}
    (hps : List.Pairwise (· < ·) ps) (hbound : ∀ p ∈ ps, p < l.length)
    (hl : l.Sorted (· ≤ ·)) :
    List.Sorted (· ≤ ·) (ps.map (fun p => l.getD p 0)) := by
  show List.Pairwise _ _
  rw [List.pairwise_map]
  refine List.Pairwise.imp_of_mem ?_ hps
  intro p q hp hq hpq
  have hpb := hbound p hp
  have hqb := hbound q hq
  rw [List.getD_eq_getElem _ _ hpb, List.getD_eq_getElem _ _ hqb]
  have := List.pairwise_iff_get.mp hl ⟨p, hpb⟩ ⟨q, hqb⟩ (by simpa using hpq)
  simpa using this

/-- The per-window series vector is exactly the selection with each index
replicated `windows_per_serie` times. -/
theorem winTs_eq (d : Dataset) (idxs : List Nat) :
    winTs d idxs = idxs.flatMap (fun i =>
      List.replicate ((windowsOf d idxs).length / idxs.length) i) := rfl

/-- Total window count: every selected series contributes `numWindows d`. -/
theorem windowsOf_length (d : Dataset) (idxs : List Nat) :
    (windowsOf d idxs).length = idxs.length * numWindows d := by
  apply length_flatMap_const
  intro i
  rw [seriesWindows, List.length_map, List.length_range]

/-- The series vector and the windows tensor have the same length. -/
theorem winTs_length (d : Dataset) (idxs : List Nat) :
    (winTs d idxs).length = (windowsOf d idxs).length := by
  rw [winTs_eq, length_flatMap_const _ _ _ (fun a => List.length_replicate _ _),
    windowsOf_length]
  rcases Nat.eq_zero_or_pos idxs.length with h0 | hpos
  · rw [h0]
    simp
  · rw [Nat.mul_div_cancel_left _ hpos]

/-- For an ascending selection, the filtered per-window series vector is
nondecreasing. -/
theorem filtTs_sorted (d : Dataset) (idxs : List Nat)
    (h : List.Sorted (· ≤ ·) idxs) :
    List.Sorted (· ≤ ·) (filtTs d idxs) := by
  rw [filtTs]
  apply sorted_map_getD
  · rw [sampIdxs, samplableIdxs]
    exact List.Pairwise.filter _ (List.pairwise_lt_range _)
  · intro p hp
    rw [winTs_length]
    rw [sampIdxs, samplableIdxs] at hp
    exact List.mem_range.mp (List.mem_filter.mp hp).1
  · rw [winTs_eq]
    exact sorted_flatMap_replicate h _

/-- Claim C6 (amended): with the last-window policy enabled, for a selection
whose index sequence is ascending (slices always are; explicit lists must be
ascending), a batch that is produced without resampling consists of exactly
the last samplable window of each distinct series present in the filtered
samplable set — its fields are the filtered tensors read at the
last-occurrence positions — and the identifier field lists each distinct
series exactly once. -/
theorem last_window_amended (d : Dataset) (sl : SL) (fuel : Nat)
    (rng : List (List Nat)) (b : Batch)
    (hlast : d.last_samplable_window = true)
    (hsort : List.Sorted (· ≤ ·) (selIdxs d sl))
    (hne : ¬(sampIdxs d (selIdxs d sl) = []))
    (hok : getitemCore d fuel rng sl = Except.ok b) :
    b.idxs = (specLastWindowSel (filtTs d (selIdxs d sl))).map
      (fun p => (filtTs d (selIdxs d sl)).getD p 0) ∧
    b.idxs.Nodup ∧
    b.Y = (specLastWindowSel (filtTs d (selIdxs d sl))).map
      (fun p => ((filtWindows d (selIdxs d sl)).getD p []).getD
        (d.t_cols.indexOf "y") []) ∧
    b.sample_mask = (specLastWindowSel (filtTs d (selIdxs d sl))).map
      (fun p => ((filtWindows d (selIdxs d sl)).getD p []).getD
        (d.t_cols.indexOf "sample_mask") []) ∧
    b.available_mask = (specLastWindowSel (filtTs d (selIdxs d sl))).map
      (fun p => ((filtWindows d (selIdxs d sl)).getD p []).getD
        (d.t_cols.indexOf "available_mask") []) := by
  rw [getitemCore.eq_def] at hok
  dsimp only at hok
  rw [if_neg hne, if_pos hlast] at hok
  have hb := Except.ok.inj hok
  subst hb
  have hsel := lastIdxsOf_sorted (filtTs d (selIdxs d sl))
    (filtTs_sorted d (selIdxs d sl) hsort)
  refine ⟨?_, ?_, ?_, ?_, ?_⟩
  · show ((lastIdxsOf (filtTs d (selIdxs d sl))).map
        fun i => (filtTs d (selIdxs d sl)).getD i 0) = _
    rw [hsel]
  · show ((lastIdxsOf (filtTs d (selIdxs d sl))).map
        fun i => (filtTs d (selIdxs d sl)).getD i 0).Nodup
    rw [hsel]
    exact specLastWindowSel_map_nodup _
  · show (((lastIdxsOf (filtTs d (selIdxs d sl))).map
        (fun i => (filtWindows d (selIdxs d sl)).getD i [])).map
        (fun w => w.getD (d.t_cols.indexOf "y") [])) = _
    rw [hsel, List.map_map]
    rfl
  · show (((lastIdxsOf (filtTs d (selIdxs d sl))).map
        (fun i => (filtWindows d (selIdxs d sl)).getD i [])).map
        (fun w => w.getD (d.t_cols.indexOf "sample_mask") [])) = _
    rw [hsel, List.map_map]
    rfl
  · show (((lastIdxsOf (filtTs d (selIdxs d sl))).map
        (fun i => (filtWindows d (selIdxs d sl)).getD i [])).map
        (fun w => w.getD (d.t_cols.indexOf "available_mask") [])) = _
    rw [hsel, List.map_map]
    rfl

/-- Witness for the amended C6 theorem at `exALast` with the ascending
selection `[0, 1]`. -/
theorem last_window_amended_witness :
    (exALast.last_samplable_window = true ∧
     List.Sorted (· ≤ ·) (selIdxs exALast (SL.list [0, 1])) ∧
     ¬(sampIdxs exALast (selIdxs exALast (SL.list [0, 1])) = []) ∧
     getitemCore exALast 1 [] (SL.list [0, 1]) = Except.ok bLastA) ∧
    (bLastA.idxs = (specLastWindowSel (filtTs exALast (selIdxs exALast
        (SL.list [0, 1])))).map
      (fun p => (filtTs exALast (selIdxs exALast (SL.list [0, 1]))).getD p 0) ∧
    bLastA.idxs.Nodup ∧
    bLastA.Y = (specLastWindowSel (filtTs exALast (selIdxs exALast
        (SL.list [0, 1])))).map
      (fun p => ((filtWindows exALast (selIdxs exALast (SL.list [0, 1]))).getD p []).getD
        (exALast.t_cols.indexOf "y") []) ∧
    bLastA.sample_mask = (specLastWindowSel (filtTs exALast (selIdxs exALast
        (SL.list [0, 1])))).map
      (fun p => ((filtWindows exALast (selIdxs exALast (SL.list [0, 1]))).getD p []).getD
        (exALast.t_cols.indexOf "sample_mask") []) ∧
    bLastA.available_mask = (specLastWindowSel (filtTs exALast (selIdxs exALast
        (SL.list [0, 1])))).map
      (fun p => ((filtWindows exALast (selIdxs exALast (SL.list [0, 1]))).getD p []).getD
        (exALast.t_cols.indexOf "available_mask") [])) :=
  ⟨⟨rfl, by decide, by decide, rfl⟩,
   last_window_amended exALast (SL.list [0, 1]) 1 [] bLastA rfl (by decide)
     (by decide) rfl⟩
